import Mathlib

/-!
# some-go-pointers: a verification development

Two Go programs are embedded here.

* `memory.go` (namespace `Memory`): the allocator-stress program.  The Go heap is
  modelled as the list of backing arrays allocated so far, a reference is a pair
  (backing array, slot), and `rand.Int()` is an oracle `draws : Nat → Int` that
  gives the value returned by the n-th call of the run, together with a counter
  of the calls consumed.
* `speed.go` (namespace `Speed`): the call-convention timer.  The run is modelled
  as the trace of its observable events (clock readings, calls, printed lines),
  with `time.Now()` an oracle `clock : Nat → Int` in nanoseconds.

Go `int` loop counters are modelled as unbounded `Int`: in both programs the
counter stays below the loop bound, so no 64-bit overflow can occur.
-/

/-! ## The Go `for i := i0; i < N; i++ { body }` statement -/

/-- The statement `for ; i < N; i++ { body }` started with counter `i` in state `s`:
the condition is tested, and when it holds the body runs, the counter is
incremented and the loop is entered again.  A body that panics (`none`) aborts
the loop. -/
def forLoop {σ : Type} (N : Int) (body : σ → Option σ) (i : Int) (s : σ) : Option σ :=
  if i < N then
    match body s with
    | none => none
    | some s1 => forLoop N body (i + 1) s1
  else some s
termination_by (N - i).toNat
decreasing_by omega

namespace Memory

/-- The constant `CYCLES` of `memory.go`. -/
def CYCLES : Int := 100

/-- A reference `&s[idx]` into the backing array number `arr` of the heap. -/
structure Ptr where
  arr : Nat
  idx : Nat
  deriving DecidableEq, Repr

/-- A Go slice header: the backing array, the length and the capacity
(the offset is always 0 in this program). -/
structure Slice where
  arr : Nat
  len : Nat
  cap : Nat
  deriving DecidableEq, Repr

/-- The part of the process state the program acts on: the backing arrays
allocated so far, in allocation order, and the number of `rand.Int()` calls
consumed so far. -/
structure World where
  heap : List (List Int)
  randCalls : Nat
  deriving DecidableEq, Repr

/-- The built-in `make([]int, n, c)`: a new zeroed backing array of `c` slots is
added to the heap and a slice of length `n` over it is returned. -/
def make (n c : Nat) (w : World) : Slice × World :=
  (⟨w.heap.length, n, c⟩, { w with heap := w.heap ++ [List.replicate c 0] })

/-- The call `rand.Int()`: the next value of the oracle is returned and consumed. -/
def randInt (draws : Nat → Int) (w : World) : Int × World :=
  (draws w.randCalls, { w with randCalls := w.randCalls + 1 })

/-- The assignment `s[j] = v`; an index outside the slice is a run-time panic. -/
def sliceSet (s : Slice) (j : Nat) (v : Int) (w : World) : Option World :=
  if j < s.len then
    some { w with heap := w.heap.modify (fun a => a.set j v) s.arr }
  else none

/-- The expression `&s[j]`; an index outside the slice is a run-time panic. -/
def sliceAddr (s : Slice) (j : Nat) : Option Ptr :=
  if j < s.len then some ⟨s.arr, j⟩ else none

/-- Reading through a reference: `*p`. -/
def deref (w : World) (p : Ptr) : Option Int :=
  match w.heap[p.arr]? with
  | none => none
  | some a => a[p.idx]?

/-- The body of `dumbNewValue` of `memory.go`, with its possible index panics:
`s := make([]int, 65536, 65536); s[0] = rand.Int(); return &s[0]`.
Next to the returned reference and the process state, the value of the local
variable `s` at the return statement is given. -/
def dumbNewValueBody (draws : Nat → Int) (w : World) : Option (Slice × Ptr × World) :=
  let (s, w1) := make 65536 65536 w
  let (r, w2) := randInt draws w1
  match sliceSet s 0 r w2 with
  | none => none
  | some w3 =>
    match sliceAddr s 0 with
    | none => none
    | some p => some (s, p, w3)

/-- The function `dumbNewValue` of `memory.go` as its caller sees it: the local
variable `s` is dropped at the return. -/
def dumbNewValueExc (draws : Nat → Int) (w : World) : Option (Ptr × World) :=
  match dumbNewValueBody draws w with
  | none => none
  | some (_, p, w3) => some (p, w3)

/-- The local state of `main`: the list `rvs` and the process state. -/
structure MainState where
  rvs : List Ptr
  world : World
  deriving DecidableEq, Repr

/-- The loop body of `main`: `rvs = append(rvs, dumbNewValue())`. -/
def loopBody (draws : Nat → Int) (st : MainState) : Option MainState :=
  match dumbNewValueExc draws st.world with
  | none => none
  | some (p, w) => some ⟨st.rvs ++ [p], w⟩

/-- The body of `main` for a cycle count `C`, started in the process state `w0`:
`rvs := []*int{}; for i := 0; i < C; i++ { rvs = append(rvs, dumbNewValue()) }`.
The deferred profiler call is outside the program and is not modelled. -/
def mainWith (C : Int) (draws : Nat → Int) (w0 : World) : Option MainState :=
  forLoop C (loopBody draws) 0 ⟨[], w0⟩

/-- The function `main` of `memory.go`: the loop runs `CYCLES` times. -/
def main (draws : Nat → Int) (w0 : World) : Option MainState :=
  mainWith CYCLES draws w0

/-- Closed form of one call of `dumbNewValue` (derived, see `dumbNewValueExc_eq`). -/
def dumbNewValue (draws : Nat → Int) (w : World) : Ptr × World :=
  (⟨w.heap.length, 0⟩,
   ⟨w.heap ++ [(List.replicate 65536 (0 : Int)).set 0 (draws w.randCalls)], w.randCalls + 1⟩)

/-- Closed form of one loop iteration (derived, see `loopBody_eq`). -/
def loopStep (draws : Nat → Int) (st : MainState) : MainState :=
  ⟨st.rvs ++ [(dumbNewValue draws st.world).1], (dumbNewValue draws st.world).2⟩

/-- Closed form of the state after `n` iterations started from `rvs = []` in the
process state `w0` (derived, see `iterate_loopStep`). -/
def retained (draws : Nat → Int) (w0 : World) (n : Nat) : MainState :=
  ⟨(List.range n).map (fun k => ⟨w0.heap.length + k, 0⟩),
   ⟨w0.heap ++ (List.range n).map
      (fun k => (List.replicate 65536 (0 : Int)).set 0 (draws (w0.randCalls + k))),
    w0.randCalls + n⟩⟩

end Memory

namespace Speed

/-- A Go array type `[n]T`: the length is part of the type. -/
structure GoArray (n : Nat) (α : Type) where
  elems : List α
  size_eq : elems.length = n

/-- The zero value of `[n]byte`. -/
def GoArray.zero (n : Nat) : GoArray n (Fin 256) :=
  ⟨List.replicate n 0, List.length_replicate n 0⟩

/-- The record type `A` of `speed.go`: `data [65536]byte`. -/
structure A where
  data : GoArray 65536 (Fin 256)

/-- The record type `B` of `speed.go`: `data [1]byte`. -/
structure B where
  data : GoArray 1 (Fin 256)

/-- A Go pointer `*T` as a reader sees it: `nil`, or the address of a variable
that currently holds `v`. -/
inductive Ref (α : Type) where
  | nil : Ref α
  | addrOf (v : α) : Ref α

/-- Dereferencing `*p`; a nil pointer is a run-time panic. -/
def Ref.load {α : Type} : Ref α → Option α
  | Ref.nil => none
  | Ref.addrOf v => some v

/-- The built-in `len(e)` for an operand `e` of array type `[n]T` that has no
function call or channel receive: the Go language makes it the constant `n` of
the type and does not evaluate `e`. The operand is given as a suspended,
possibly panicking evaluation. -/
def lenArray {n : Nat} {α : Type} (_e : Unit → Option (GoArray n α)) : Int := n

/-- The function `valFunc`: `return len(a.data)`. -/
def valFunc (a : A) : Int :=
  lenArray (fun _ => some a.data)

/-- The function `ptrFunc`: `return len(a.data)` with `a` of type `*A`, where
`a.data` stands for `(*a).data`; `none` would be a panic. -/
def ptrFunc (a : Ref A) : Option Int :=
  some (lenArray (fun _ => a.load.map A.data))

/-- The function `valFuncSmol`: `return len(b.data)`. -/
def valFuncSmol (b : B) : Int :=
  lenArray (fun _ => some b.data)

/-- The function `ptrFuncSmol`: `return len(b.data)` with `b` of type `*B`. -/
def ptrFuncSmol (b : Ref B) : Option Int :=
  some (lenArray (fun _ => b.load.map B.data))

/-- The four functions that `main` calls. -/
inductive Fn where
  | valFunc | ptrFunc | valFuncSmol | ptrFuncSmol
  deriving DecidableEq, Repr

/-- The observable events of a run: a clock reading, a completed call with its
return value, a line printed by `fmt.Println(label, d)`. -/
inductive Event where
  | now (t : Int)
  | call (f : Fn) (ret : Int)
  | println (label : String) (d : Int)
  deriving DecidableEq, Repr

/-- The run state: the number of clock readings taken and the events so far. -/
structure St where
  nowCalls : Nat
  trace : List Event
  deriving DecidableEq, Repr

/-- Appending an event to the trace. -/
def St.emit (st : St) (e : Event) : St :=
  { st with trace := st.trace ++ [e] }

/-- The call `time.Now()`: the next reading of the clock (nanoseconds). -/
def timeNow (clock : Nat → Int) (st : St) : Int × St :=
  (clock st.nowCalls, { nowCalls := st.nowCalls + 1, trace := st.trace ++ [Event.now (clock st.nowCalls)] })

/-- The least `time.Duration` (an `int64` of nanoseconds). -/
def minDuration : Int := -(2 ^ 63)

/-- The greatest `time.Duration`. -/
def maxDuration : Int := 2 ^ 63 - 1

/-- The method `t.Sub(u)` of the `time` package: the difference `t - u`, replaced
by the least or greatest duration when it does not fit. -/
def timeSub (t u : Int) : Int :=
  if t - u < minDuration then minDuration
  else if maxDuration < t - u then maxDuration
  else t - u

/-- The statement `fmt.Println(label, d)`. -/
def println (label : String) (d : Int) (st : St) : St :=
  st.emit (Event.println label d)

/-- A call statement whose result is dropped; a panicking call aborts. -/
def callStmt (f : Fn) (r : Option Int) (st : St) : Option St :=
  match r with
  | none => none
  | some v => some (st.emit (Event.call f v))

/-- The function `main` of `speed.go`. -/
def main (clock : Nat → Int) : Option St := do
  let st : St := ⟨0, []⟩
  let a : A := ⟨GoArray.zero 65536⟩
  let (t, st) := timeNow clock st
  let st ← forLoop 1000000 (fun s => callStmt Fn.valFunc (some (valFunc a)) s) 0 st
  let (t1, st) := timeNow clock st
  let st := println "A: passing the val:" (timeSub t1 t) st
  let (t, st) := timeNow clock st
  let st ← forLoop 1000000 (fun s => callStmt Fn.ptrFunc (ptrFunc (Ref.addrOf a)) s) 0 st
  let (t1, st) := timeNow clock st
  let st := println "A: passing the ptr:" (timeSub t1 t) st
  let b : B := ⟨GoArray.zero 1⟩
  let (t, st) := timeNow clock st
  let st ← forLoop 1000000 (fun s => callStmt Fn.valFuncSmol (some (valFuncSmol b)) s) 0 st
  let (t1, st) := timeNow clock st
  let st := println "B: passing the val:" (timeSub t1 t) st
  let (t, st) := timeNow clock st
  let st ← forLoop 1000000 (fun s => callStmt Fn.ptrFuncSmol (ptrFuncSmol (Ref.addrOf b)) s) 0 st
  let (t1, st) := timeNow clock st
  let st := println "B: passing the ptr:" (timeSub t1 t) st
  return st

/-- The text of one printed line: `fmt.Println` writes its operands separated by a
blank and ends the line; `fmtDuration` is `Duration.String` of the library. -/
def lineOf (fmtDuration : Int → String) : Event → Option String
  | Event.println label d => some (label ++ " " ++ fmtDuration d ++ "\n")
  | _ => none

/-- Standard output of a run: the printed lines in order. -/
def stdout (fmtDuration : Int → String) (st : St) : List String :=
  st.trace.filterMap (lineOf fmtDuration)

/-- The calls of a run, in order. -/
def callsOf (tr : List Event) : List (Fn × Int) :=
  tr.filterMap (fun e => match e with
    | Event.call f r => some (f, r)
    | _ => none)

/-- The durations printed by a run, in order. -/
def durationsOf (tr : List Event) : List Int :=
  tr.filterMap (fun e => match e with
    | Event.println _ d => some d
    | _ => none)

/-- The size each function is expected to report. -/
def expectedSize : Fn → Int
  | Fn.valFunc => 65536
  | Fn.ptrFunc => 65536
  | Fn.valFuncSmol => 1
  | Fn.ptrFuncSmol => 1

/-- Closed form of the trace of `main` (derived, see `main_eq`). -/
def mainTrace (clock : Nat → Int) : List Event :=
  [Event.now (clock 0)] ++ List.replicate 1000000 (Event.call Fn.valFunc 65536) ++
  [Event.now (clock 1), Event.println "A: passing the val:" (timeSub (clock 1) (clock 0)),
   Event.now (clock 2)] ++ List.replicate 1000000 (Event.call Fn.ptrFunc 65536) ++
  [Event.now (clock 3), Event.println "A: passing the ptr:" (timeSub (clock 3) (clock 2)),
   Event.now (clock 4)] ++ List.replicate 1000000 (Event.call Fn.valFuncSmol 1) ++
  [Event.now (clock 5), Event.println "B: passing the val:" (timeSub (clock 5) (clock 4)),
   Event.now (clock 6)] ++ List.replicate 1000000 (Event.call Fn.ptrFuncSmol 1) ++
  [Event.now (clock 7), Event.println "B: passing the ptr:" (timeSub (clock 7) (clock 6))]

end Speed


/-! ## Loop rules -/

theorem forLoop_done {σ : Type} (N : Int) (body : σ → Option σ) (i : Int) (s : σ)
    (h : N ≤ i) : forLoop N body i s = some s := by
  rw [forLoop]; simp [not_lt.mpr h]

theorem forLoop_step {σ : Type} (N : Int) (body : σ → Option σ) (i : Int) (s s1 : σ)
    (h : i < N) (hb : body s = some s1) :
    forLoop N body i s = forLoop N body (i + 1) s1 := by
  rw [forLoop]; simp [h, hb]

/-- A loop whose body never panics and acts as `g` runs `g` once per remaining
value of the counter. -/
theorem forLoop_iter {σ : Type} (N : Int) (body : σ → Option σ) (g : σ → σ)
    (hg : ∀ s, body s = some (g s)) (n : Nat) :
    ∀ (i : Int) (s : σ), (N - i).toNat = n → forLoop N body i s = some (g^[n] s) := by
  induction n with
  | zero =>
    intro i s h
    rw [forLoop_done N body i s (by omega)]; rfl
  | succ n ih =>
    intro i s h
    rw [forLoop_step N body i s (g s) (by omega) (hg s), ih (i + 1) (g s) (by omega)]
    rfl

namespace Memory

theorem modify_append_last {α : Type} (f : α → α) (l : List α) (a : α) :
    (l ++ [a]).modify f l.length = l ++ [f a] := by
  induction l with
  | nil => rfl
  | cons b l ih => simp [ih]

theorem dumbNewValueBody_eq (draws : Nat → Int) (w : World) :
    dumbNewValueBody draws w =
      some (⟨w.heap.length, 65536, 65536⟩, dumbNewValue draws w) := by
  simp only [dumbNewValueBody, make, randInt, sliceSet, sliceAddr, modify_append_last,
    dumbNewValue]
  rfl

theorem dumbNewValueExc_eq (draws : Nat → Int) (w : World) :
    dumbNewValueExc draws w = some (dumbNewValue draws w) := by
  simp only [dumbNewValueExc, dumbNewValueBody_eq]

theorem loopBody_eq (draws : Nat → Int) (st : MainState) :
    loopBody draws st = some (loopStep draws st) := by
  simp only [loopBody, dumbNewValueExc_eq, loopStep]

theorem iterate_loopStep (draws : Nat → Int) (w0 : World) (n : Nat) :
    (loopStep draws)^[n] ⟨[], w0⟩ = retained draws w0 n := by
  induction n with
  | zero =>
    simp only [retained, Function.iterate_zero, id, List.range_zero, List.map_nil,
      List.append_nil, Nat.add_zero]
  | succ n ih =>
    rw [Function.iterate_succ_apply', ih]
    simp only [loopStep, retained, dumbNewValue, List.range_succ, List.map_append, List.map_cons,
      List.map_nil, List.length_append, List.length_map, List.length_range, List.append_assoc,
      Nat.add_assoc]

/-- The loop of `main` up to the bound `N`, in closed form. -/
theorem forLoop_retained (draws : Nat → Int) (w0 : World) (N : Int) :
    forLoop N (loopBody draws) 0 ⟨[], w0⟩ = some (retained draws w0 N.toNat) := by
  rw [forLoop_iter N (loopBody draws) (loopStep draws) (loopBody_eq draws) N.toNat 0 _ (by simp),
    iterate_loopStep]

/-- Continuing the loop from the state reached after `i` iterations. -/
theorem forLoop_resume (draws : Nat → Int) (w0 : World) (N : Int) (i : Nat) (hi : (i : Int) ≤ N) :
    forLoop N (loopBody draws) i (retained draws w0 i) = some (retained draws w0 N.toNat) := by
  rw [forLoop_iter N (loopBody draws) (loopStep draws) (loopBody_eq draws) (N.toNat - i) i _
    (by omega), ← iterate_loopStep, ← iterate_loopStep, ← Function.iterate_add_apply]
  congr 2
  omega

end Memory

namespace Memory

theorem buf_head (m : Nat) (hm : 0 < m) (v : Int) :
    ((List.replicate m (0 : Int)).set 0 v)[0]? = some v := by
  cases m with
  | zero => omega
  | succ m => simp [List.replicate_succ]

theorem buf_tail (m : Nat) (v : Int) (j : Nat) (h1 : 1 ≤ j) (h2 : j < m) :
    ((List.replicate m (0 : Int)).set 0 v)[j]? = some 0 := by
  rw [List.getElem?_set_ne (by omega), List.getElem?_eq_getElem (by simpa using h2)]
  rw [List.getElem_replicate]

theorem buf_length (m : Nat) (v : Int) :
    ((List.replicate m (0 : Int)).set 0 v).length = m := by
  rw [List.length_set, List.length_replicate]

theorem retained_rvs_length (draws : Nat → Int) (w0 : World) (n : Nat) :
    (retained draws w0 n).rvs.length = n := by
  simp only [retained, List.length_map, List.length_range]

theorem retained_rvs_get (draws : Nat → Int) (w0 : World) (n k : Nat) (hk : k < n) :
    (retained draws w0 n).rvs[k]? = some ⟨w0.heap.length + k, 0⟩ := by
  simp only [retained, List.getElem?_map, List.getElem?_range hk, Option.map_some']

theorem retained_heap_get (draws : Nat → Int) (w0 : World) (n k : Nat) (hk : k < n) :
    (retained draws w0 n).world.heap[w0.heap.length + k]? =
      some ((List.replicate 65536 (0 : Int)).set 0 (draws (w0.randCalls + k))) := by
  simp only [retained]
  rw [List.getElem?_append_right (by omega), Nat.add_sub_cancel_left]
  simp only [List.getElem?_map, List.getElem?_range hk, Option.map_some']

theorem retained_heap_old (draws : Nat → Int) (w0 : World) (n a : Nat) (ha : a < w0.heap.length) :
    (retained draws w0 n).world.heap[a]? = w0.heap[a]? := by
  simp only [retained]
  rw [List.getElem?_append_left ha]

theorem retained_deref (draws : Nat → Int) (w0 : World) (n k : Nat) (hk : k < n) :
    deref (retained draws w0 n).world ⟨w0.heap.length + k, 0⟩ =
      some (draws (w0.randCalls + k)) := by
  simp only [deref, retained_heap_get draws w0 n k hk]
  exact buf_head 65536 (by decide) _

theorem retained_randCalls (draws : Nat → Int) (w0 : World) (n : Nat) :
    (retained draws w0 n).world.randCalls = w0.randCalls + n := rfl

end Memory

/-! ## The allocator-stress program -/

/-- C1: for every cycle count `C ≥ 0`, each iteration of the loop of `main` appends
exactly one reference to `rvs`; after `i ≤ C` iterations `rvs` has exactly `i`
elements (and the loop goes on from counter `i` in that state); after the loop
`rvs` has exactly `C` elements; with `CYCLES = 100` it has exactly 100. -/
theorem rvs_grows_by_one_per_iteration (draws : Nat → Int) (w0 : Memory.World) (C : Int)
    (hC : 0 ≤ C) :
    (∀ st : Memory.MainState, ∃ p w,
        Memory.loopBody draws st = some ⟨st.rvs ++ [p], w⟩) ∧
    (∀ i : Nat, (i : Int) ≤ C → ∃ s,
        forLoop i (Memory.loopBody draws) 0 ⟨[], w0⟩ = some s ∧ s.rvs.length = i ∧
        Memory.mainWith C draws w0 = forLoop C (Memory.loopBody draws) i s) ∧
    (∃ s, Memory.mainWith C draws w0 = some s ∧ (s.rvs.length : Int) = C) ∧
    (∃ s, Memory.main draws w0 = some s ∧ s.rvs.length = 100) := by
  refine ⟨?_, ?_, ?_, ?_⟩
  · intro st
    exact ⟨_, _, Memory.loopBody_eq draws st⟩
  · intro i hi
    refine ⟨Memory.retained draws w0 i, ?_, Memory.retained_rvs_length draws w0 i, ?_⟩
    · rw [Memory.forLoop_retained, Int.toNat_ofNat]
    · rw [Memory.forLoop_resume draws w0 C i hi, Memory.mainWith, Memory.forLoop_retained]
  · refine ⟨Memory.retained draws w0 C.toNat, Memory.forLoop_retained draws w0 C, ?_⟩
    rw [Memory.retained_rvs_length]
    omega
  · exact ⟨Memory.retained draws w0 100, Memory.forLoop_retained draws w0 100,
      Memory.retained_rvs_length draws w0 100⟩

/-- Witness of C1 at the cycle count 3, the oracle `n ↦ n` and the empty heap. -/
theorem rvs_grows_by_one_per_iteration_witness :
    (0 : Int) ≤ 3 ∧
    ((∀ st : Memory.MainState, ∃ p w,
        Memory.loopBody (fun n => (n : Int)) st = some ⟨st.rvs ++ [p], w⟩) ∧
    (∀ i : Nat, (i : Int) ≤ 3 → ∃ s,
        forLoop i (Memory.loopBody (fun n => (n : Int))) 0 ⟨[], ⟨[], 0⟩⟩ = some s ∧
        s.rvs.length = i ∧
        Memory.mainWith 3 (fun n => (n : Int)) ⟨[], 0⟩ =
          forLoop 3 (Memory.loopBody (fun n => (n : Int))) i s) ∧
    (∃ s, Memory.mainWith 3 (fun n => (n : Int)) ⟨[], 0⟩ = some s ∧ (s.rvs.length : Int) = 3) ∧
    (∃ s, Memory.main (fun n => (n : Int)) ⟨[], 0⟩ = some s ∧ s.rvs.length = 100)) :=
  ⟨by decide, rvs_grows_by_one_per_iteration (fun n => (n : Int)) ⟨[], 0⟩ 3 (by decide)⟩

/-- C2: for every cycle count `C` and every sequence of `rand.Int()` results, the
`k`-th reference of `rvs` (`k < C`) reads back, after the loop, the value returned
by the `k`-th call of `rand.Int()`: that call is made in iteration `k`, its
result is what the reference reads right after that iteration, and after
every later iteration as well. -/
theorem retained_value_reads_back (draws : Nat → Int) (w0 : Memory.World) (C : Int) (k : Nat)
    (hk : (k : Int) < C) :
    ∃ s p, Memory.mainWith C draws w0 = some s ∧ s.rvs[k]? = some p ∧
      Memory.deref s.world p = some (draws (w0.randCalls + k)) ∧
      (∃ sk, forLoop k (Memory.loopBody draws) 0 ⟨[], w0⟩ = some sk ∧
        (Memory.randInt draws sk.world).1 = draws (w0.randCalls + k) ∧
        ∃ w, Memory.dumbNewValueExc draws sk.world = some (p, w) ∧
          Memory.deref w p = some (draws (w0.randCalls + k))) ∧
      (∀ j : Nat, k < j → (j : Int) ≤ C → ∃ sj,
        forLoop j (Memory.loopBody draws) 0 ⟨[], w0⟩ = some sj ∧ sj.rvs[k]? = some p ∧
        Memory.deref sj.world p = some (draws (w0.randCalls + k))) := by
  have hkC : k < C.toNat := by omega
  refine ⟨Memory.retained draws w0 C.toNat, ⟨w0.heap.length + k, 0⟩,
    Memory.forLoop_retained draws w0 C, Memory.retained_rvs_get draws w0 _ k hkC,
    Memory.retained_deref draws w0 _ k hkC, ?_, ?_⟩
  · refine ⟨Memory.retained draws w0 k, ?_, rfl, ?_⟩
    · rw [Memory.forLoop_retained, Int.toNat_ofNat]
    · refine ⟨(Memory.retained draws w0 (k + 1)).world, ?_, ?_⟩
      · rw [Memory.dumbNewValueExc_eq]
        simp only [Memory.dumbNewValue, Memory.retained, List.length_append, List.length_map,
          List.length_range, List.range_succ, List.map_append, List.map_cons, List.map_nil,
          List.append_assoc, Nat.add_assoc]
      · exact Memory.retained_deref draws w0 (k + 1) k (by omega)
  · intro j hkj _
    refine ⟨Memory.retained draws w0 j, ?_, Memory.retained_rvs_get draws w0 j k hkj,
      Memory.retained_deref draws w0 j k hkj⟩
    rw [Memory.forLoop_retained, Int.toNat_ofNat]

/-- Witness of C2 at the cycle count 2 and the reference number 1. -/
theorem retained_value_reads_back_witness :
    ((1 : Nat) : Int) < 2 ∧
    ∃ s p, Memory.mainWith 2 (fun n => (n : Int) + 7) ⟨[], 0⟩ = some s ∧ s.rvs[1]? = some p ∧
      Memory.deref s.world p = some ((fun n => (n : Int) + 7) (0 + 1)) ∧
      (∃ sk, forLoop (1 : Nat) (Memory.loopBody (fun n => (n : Int) + 7)) 0 ⟨[], ⟨[], 0⟩⟩ = some sk ∧
        (Memory.randInt (fun n => (n : Int) + 7) sk.world).1 = (fun n => (n : Int) + 7) (0 + 1) ∧
        ∃ w, Memory.dumbNewValueExc (fun n => (n : Int) + 7) sk.world = some (p, w) ∧
          Memory.deref w p = some ((fun n => (n : Int) + 7) (0 + 1))) ∧
      (∀ j : Nat, 1 < j → (j : Int) ≤ 2 → ∃ sj,
        forLoop j (Memory.loopBody (fun n => (n : Int) + 7)) 0 ⟨[], ⟨[], 0⟩⟩ = some sj ∧
        sj.rvs[1]? = some p ∧
        Memory.deref sj.world p = some ((fun n => (n : Int) + 7) (0 + 1))) :=
  ⟨by decide, retained_value_reads_back (fun n => (n : Int) + 7) ⟨[], 0⟩ 2 1 (by decide)⟩

/-- C6: with a cycle count of 0 the loop body never runs: `rvs` is empty at the end
and the process state is untouched (no buffer allocated, no `rand.Int()` result
consumed); the same holds for every cycle count below 0. -/
theorem zero_cycles_do_nothing (draws : Nat → Int) (w0 : Memory.World) :
    Memory.mainWith 0 draws w0 = some ⟨[], w0⟩ ∧
    (∀ s, Memory.mainWith 0 draws w0 = some s →
      s.rvs = [] ∧ s.world.heap = w0.heap ∧ s.world.randCalls = w0.randCalls) ∧
    (∀ C : Int, C ≤ 0 → Memory.mainWith C draws w0 = some ⟨[], w0⟩) := by
  have h : ∀ C : Int, C ≤ 0 → Memory.mainWith C draws w0 = some ⟨[], w0⟩ := fun C hC =>
    forLoop_done C (Memory.loopBody draws) 0 ⟨[], w0⟩ hC
  refine ⟨h 0 (le_refl 0), ?_, h⟩
  intro s hs
  rw [h 0 (le_refl 0)] at hs
  cases hs
  exact ⟨rfl, rfl, rfl⟩

/-- C9: every call of `dumbNewValue` allocates a new buffer of exactly 65536 slots
(the slice `s` it makes has length and capacity both 65536), writes the `rand.Int()` result into slot
0 only (slots 1 to 65535 stay 0), returns a reference to slot 0 of the new
buffer and leaves every buffer allocated before unchanged; hence the references
collected in `rvs` are pairwise distinct and point into distinct buffers. -/
theorem dumbNewValue_allocates_fresh_buffer (draws : Nat → Int) (w : Memory.World) :
    (∃ s p w1, Memory.dumbNewValueBody draws w = some (s, p, w1) ∧
      Memory.dumbNewValueExc draws w = some (p, w1) ∧
      s.len = 65536 ∧ s.cap = 65536 ∧ s.arr = w.heap.length ∧ p.arr = s.arr ∧
      p = ⟨w.heap.length, 0⟩ ∧ w1.heap.length = w.heap.length + 1 ∧
      w1.randCalls = w.randCalls + 1 ∧
      (∃ buf, w1.heap[p.arr]? = some buf ∧ buf.length = 65536 ∧
        buf[0]? = some (draws w.randCalls) ∧
        ∀ j : Nat, 1 ≤ j → j < 65536 → buf[j]? = some 0) ∧
      (∀ a : Nat, a < w.heap.length → w1.heap[a]? = w.heap[a]?) ∧
      (∀ q : Memory.Ptr, q.arr < w.heap.length → Memory.deref w1 q = Memory.deref w q)) ∧
    (∀ C : Int, ∃ s, Memory.mainWith C draws w = some s ∧ s.rvs.length = C.toNat ∧
      s.rvs.Nodup ∧ (s.rvs.map Memory.Ptr.arr).Nodup) := by
  constructor
  · refine ⟨⟨w.heap.length, 65536, 65536⟩, (Memory.dumbNewValue draws w).1,
      (Memory.dumbNewValue draws w).2, Memory.dumbNewValueBody_eq draws w,
      Memory.dumbNewValueExc_eq draws w, rfl, rfl, rfl, rfl, rfl, ?_, rfl, ?_, ?_, ?_⟩
    · simp only [Memory.dumbNewValue, List.length_append, List.length_singleton]
    · refine ⟨(List.replicate 65536 (0 : Int)).set 0 (draws w.randCalls), ?_,
        Memory.buf_length 65536 _, Memory.buf_head 65536 (by decide) _,
        fun j h1 h2 => Memory.buf_tail 65536 _ j h1 h2⟩
      simp only [Memory.dumbNewValue]
      rw [List.getElem?_append_right (le_refl _), Nat.sub_self]
      rfl
    · intro a ha
      simp only [Memory.dumbNewValue]
      rw [List.getElem?_append_left ha]
    · intro q hq
      simp only [Memory.deref, Memory.dumbNewValue]
      rw [List.getElem?_append_left hq]
  · intro C
    have hmap : ((Memory.retained draws w C.toNat).rvs.map Memory.Ptr.arr).Nodup := by
      simp only [Memory.retained, List.map_map]
      refine List.Nodup.map ?_ (List.nodup_range _)
      intro a b hab
      simpa using hab
    exact ⟨Memory.retained draws w C.toNat, Memory.forLoop_retained draws w C,
      Memory.retained_rvs_length draws w _, List.Nodup.of_map _ hmap, hmap⟩

/-! ## The call-convention timer -/

namespace Speed

theorem lenArray_eq {n : Nat} {α : Type} (e : Unit → Option (GoArray n α)) :
    lenArray e = (n : Int) := rfl

theorem valFunc_eq (a : A) : valFunc a = 65536 := rfl

theorem ptrFunc_eq (a : Ref A) : ptrFunc a = some 65536 := rfl

theorem valFuncSmol_eq (b : B) : valFuncSmol b = 1 := rfl

theorem ptrFuncSmol_eq (b : Ref B) : ptrFuncSmol b = some 1 := rfl

theorem iterate_emit (e : Event) (n : Nat) (s : St) :
    (fun s : St => s.emit e)^[n] s = ⟨s.nowCalls, s.trace ++ List.replicate n e⟩ := by
  induction n generalizing s with
  | zero => simp only [Function.iterate_zero, id, List.replicate_zero, List.append_nil]
  | succ n ih =>
    rw [Function.iterate_succ_apply, ih]
    simp only [St.emit, List.replicate_succ, List.append_assoc, List.singleton_append]

/-- A batch: the loop of one million calls adds one million call events. -/
theorem batch_loop (f : Fn) (v : Int) (s : St) :
    forLoop 1000000 (fun s => callStmt f (some v) s) 0 s =
      some ⟨s.nowCalls, s.trace ++ List.replicate 1000000 (Event.call f v)⟩ := by
  rw [forLoop_iter 1000000 (fun s => callStmt f (some v) s) (fun s => s.emit (Event.call f v))
    (fun _ => rfl) 1000000 0 s rfl, iterate_emit]

theorem main_eq (clock : Nat → Int) : main clock = some ⟨8, mainTrace clock⟩ := by
  unfold main
  simp only [valFunc_eq, ptrFunc_eq, valFuncSmol_eq, ptrFuncSmol_eq]
  simp only [timeNow]
  simp only [batch_loop]
  simp only [Option.bind_eq_bind, Option.some_bind, Option.pure_def]
  simp only [println, St.emit]
  simp only [List.append_assoc]
  simp only [List.nil_append, List.cons_append, List.singleton_append]
  simp only [Nat.zero_add, Nat.reduceAdd]
  unfold mainTrace
  simp only [List.append_assoc]
  simp only [List.nil_append, List.cons_append, List.singleton_append]

end Speed


namespace Speed

theorem callsOf_nil : callsOf [] = [] := rfl

theorem callsOf_append (l1 l2 : List Event) : callsOf (l1 ++ l2) = callsOf l1 ++ callsOf l2 :=
  List.filterMap_append l1 l2 _

theorem callsOf_now (t : Int) (l : List Event) : callsOf (Event.now t :: l) = callsOf l := rfl

theorem callsOf_println (lab : String) (d : Int) (l : List Event) :
    callsOf (Event.println lab d :: l) = callsOf l := rfl

theorem callsOf_call (f : Fn) (v : Int) (l : List Event) :
    callsOf (Event.call f v :: l) = (f, v) :: callsOf l := rfl

theorem callsOf_calls (n : Nat) (f : Fn) (v : Int) :
    callsOf (List.replicate n (Event.call f v)) = List.replicate n (f, v) := by
  induction n with
  | zero => rfl
  | succ n ih => rw [List.replicate_succ, callsOf_call, ih, List.replicate_succ]

theorem callsOf_mainTrace (clock : Nat → Int) :
    callsOf (mainTrace clock) =
      List.replicate 1000000 (Fn.valFunc, 65536) ++ (List.replicate 1000000 (Fn.ptrFunc, 65536) ++
      (List.replicate 1000000 (Fn.valFuncSmol, 1) ++ List.replicate 1000000 (Fn.ptrFuncSmol, 1))) := by
  have h1 := callsOf_calls 1000000 Fn.valFunc 65536
  have h2 := callsOf_calls 1000000 Fn.ptrFunc 65536
  have h3 := callsOf_calls 1000000 Fn.valFuncSmol 1
  have h4 := callsOf_calls 1000000 Fn.ptrFuncSmol 1
  unfold mainTrace
  generalize List.replicate 1000000 (Event.call Fn.valFunc 65536) = R1 at h1 ⊢
  generalize List.replicate 1000000 (Event.call Fn.ptrFunc 65536) = R2 at h2 ⊢
  generalize List.replicate 1000000 (Event.call Fn.valFuncSmol 1) = R3 at h3 ⊢
  generalize List.replicate 1000000 (Event.call Fn.ptrFuncSmol 1) = R4 at h4 ⊢
  generalize List.replicate 1000000 (Fn.valFunc, (65536 : Int)) = C1 at h1 ⊢
  generalize List.replicate 1000000 (Fn.ptrFunc, (65536 : Int)) = C2 at h2 ⊢
  generalize List.replicate 1000000 (Fn.valFuncSmol, (1 : Int)) = C3 at h3 ⊢
  generalize List.replicate 1000000 (Fn.ptrFuncSmol, (1 : Int)) = C4 at h4 ⊢
  simp only [callsOf_append, callsOf_now, callsOf_println, callsOf_nil, h1, h2, h3, h4]
  simp only [List.nil_append, List.append_nil, List.append_assoc]

theorem durationsOf_nil : durationsOf [] = [] := rfl

theorem durationsOf_append (l1 l2 : List Event) :
    durationsOf (l1 ++ l2) = durationsOf l1 ++ durationsOf l2 :=
  List.filterMap_append l1 l2 _

theorem durationsOf_now (t : Int) (l : List Event) :
    durationsOf (Event.now t :: l) = durationsOf l := rfl

theorem durationsOf_println (lab : String) (d : Int) (l : List Event) :
    durationsOf (Event.println lab d :: l) = d :: durationsOf l := rfl

theorem durationsOf_call (f : Fn) (v : Int) (l : List Event) :
    durationsOf (Event.call f v :: l) = durationsOf l := rfl

theorem durationsOf_calls (n : Nat) (f : Fn) (v : Int) :
    durationsOf (List.replicate n (Event.call f v)) = [] := by
  induction n with
  | zero => rfl
  | succ n ih => rw [List.replicate_succ, durationsOf_call, ih]

theorem durationsOf_mainTrace (clock : Nat → Int) :
    durationsOf (mainTrace clock) =
      [timeSub (clock 1) (clock 0), timeSub (clock 3) (clock 2), timeSub (clock 5) (clock 4),
       timeSub (clock 7) (clock 6)] := by
  have h1 := durationsOf_calls 1000000 Fn.valFunc 65536
  have h2 := durationsOf_calls 1000000 Fn.ptrFunc 65536
  have h3 := durationsOf_calls 1000000 Fn.valFuncSmol 1
  have h4 := durationsOf_calls 1000000 Fn.ptrFuncSmol 1
  unfold mainTrace
  generalize List.replicate 1000000 (Event.call Fn.valFunc 65536) = R1 at h1 ⊢
  generalize List.replicate 1000000 (Event.call Fn.ptrFunc 65536) = R2 at h2 ⊢
  generalize List.replicate 1000000 (Event.call Fn.valFuncSmol 1) = R3 at h3 ⊢
  generalize List.replicate 1000000 (Event.call Fn.ptrFuncSmol 1) = R4 at h4 ⊢
  simp only [durationsOf_append, durationsOf_now, durationsOf_println, durationsOf_nil,
    h1, h2, h3, h4]
  simp only [List.nil_append, List.append_nil, List.cons_append]

theorem lines_append (fmtDuration : Int → String) (l1 l2 : List Event) :
    (l1 ++ l2).filterMap (lineOf fmtDuration) =
      l1.filterMap (lineOf fmtDuration) ++ l2.filterMap (lineOf fmtDuration) :=
  List.filterMap_append l1 l2 _

theorem lines_now (fmtDuration : Int → String) (t : Int) (l : List Event) :
    (Event.now t :: l).filterMap (lineOf fmtDuration) = l.filterMap (lineOf fmtDuration) := rfl

theorem lines_println (fmtDuration : Int → String) (lab : String) (d : Int) (l : List Event) :
    (Event.println lab d :: l).filterMap (lineOf fmtDuration) =
      (lab ++ " " ++ fmtDuration d ++ "\n") :: l.filterMap (lineOf fmtDuration) := rfl

theorem lines_call (fmtDuration : Int → String) (f : Fn) (v : Int) (l : List Event) :
    (Event.call f v :: l).filterMap (lineOf fmtDuration) = l.filterMap (lineOf fmtDuration) := rfl

theorem lines_calls (fmtDuration : Int → String) (n : Nat) (f : Fn) (v : Int) :
    (List.replicate n (Event.call f v)).filterMap (lineOf fmtDuration) = [] := by
  induction n with
  | zero => rfl
  | succ n ih => rw [List.replicate_succ, lines_call, ih]

theorem stdout_mainTrace (fmtDuration : Int → String) (clock : Nat → Int) :
    (mainTrace clock).filterMap (lineOf fmtDuration) =
      ["A: passing the val:" ++ " " ++ fmtDuration (timeSub (clock 1) (clock 0)) ++ "\n",
       "A: passing the ptr:" ++ " " ++ fmtDuration (timeSub (clock 3) (clock 2)) ++ "\n",
       "B: passing the val:" ++ " " ++ fmtDuration (timeSub (clock 5) (clock 4)) ++ "\n",
       "B: passing the ptr:" ++ " " ++ fmtDuration (timeSub (clock 7) (clock 6)) ++ "\n"] := by
  have h1 := lines_calls fmtDuration 1000000 Fn.valFunc 65536
  have h2 := lines_calls fmtDuration 1000000 Fn.ptrFunc 65536
  have h3 := lines_calls fmtDuration 1000000 Fn.valFuncSmol 1
  have h4 := lines_calls fmtDuration 1000000 Fn.ptrFuncSmol 1
  unfold mainTrace
  generalize List.replicate 1000000 (Event.call Fn.valFunc 65536) = R1 at h1 ⊢
  generalize List.replicate 1000000 (Event.call Fn.ptrFunc 65536) = R2 at h2 ⊢
  generalize List.replicate 1000000 (Event.call Fn.valFuncSmol 1) = R3 at h3 ⊢
  generalize List.replicate 1000000 (Event.call Fn.ptrFuncSmol 1) = R4 at h4 ⊢
  simp only [lines_append, lines_now, lines_println, List.filterMap_nil, h1, h2, h3, h4]
  simp only [List.nil_append, List.append_nil, List.cons_append]

theorem timeSub_nonneg (t u : Int) (h : u ≤ t) : 0 ≤ timeSub t u := by
  unfold timeSub minDuration maxDuration
  split_ifs <;> omega

end Speed

/-- C3: for every record `a` of type `A`, whatever its payload, `valFunc(a)` and
`ptrFunc(&a)` are 65536, and for every record `b` of type `B`, `valFuncSmol(b)`
and `ptrFuncSmol(&b)` are 1; hence every call made by `main` returns the size
expected of its function. -/
theorem sizes_are_fixed (a : Speed.A) (b : Speed.B) (clock : Nat → Int) :
    Speed.valFunc a = 65536 ∧ Speed.ptrFunc (Speed.Ref.addrOf a) = some 65536 ∧
    Speed.valFuncSmol b = 1 ∧ Speed.ptrFuncSmol (Speed.Ref.addrOf b) = some 1 ∧
    ∃ st, Speed.main clock = some st ∧
      ∀ f r, (f, r) ∈ Speed.callsOf st.trace → r = Speed.expectedSize f := by
  refine ⟨rfl, rfl, rfl, rfl, ⟨8, Speed.mainTrace clock⟩, Speed.main_eq clock, ?_⟩
  intro f r h
  rw [Speed.callsOf_mainTrace] at h
  simp only [List.mem_append, List.mem_replicate, Prod.mk.injEq] at h
  rcases h with h | h | h | h <;> obtain ⟨-, rfl, rfl⟩ := h <;> rfl

/-- C4: `main` of the timer writes exactly four lines to standard output, in the
order large-by-value, large-by-reference, small-by-value, small-by-reference,
each the label, a blank and the duration of its batch, the labels being
"A: passing the val:", "A: passing the ptr:", "B: passing the val:",
"B: passing the ptr:"; each line is written right after the clock reading that
ends its own batch and before the clock reading that starts the next batch. -/
theorem four_lines_in_order (clock : Nat → Int) (fmtDuration : Int → String) :
    ∃ st, Speed.main clock = some st ∧
      Speed.stdout fmtDuration st =
        ["A: passing the val:" ++ " " ++ fmtDuration (Speed.timeSub (clock 1) (clock 0)) ++ "\n",
         "A: passing the ptr:" ++ " " ++ fmtDuration (Speed.timeSub (clock 3) (clock 2)) ++ "\n",
         "B: passing the val:" ++ " " ++ fmtDuration (Speed.timeSub (clock 5) (clock 4)) ++ "\n",
         "B: passing the ptr:" ++ " " ++ fmtDuration (Speed.timeSub (clock 7) (clock 6)) ++ "\n"] ∧
      (Speed.stdout fmtDuration st).length = 4 ∧
      st.trace =
        [Speed.Event.now (clock 0)] ++
        List.replicate 1000000 (Speed.Event.call Speed.Fn.valFunc 65536) ++
        [Speed.Event.now (clock 1),
         Speed.Event.println "A: passing the val:" (Speed.timeSub (clock 1) (clock 0)),
         Speed.Event.now (clock 2)] ++
        List.replicate 1000000 (Speed.Event.call Speed.Fn.ptrFunc 65536) ++
        [Speed.Event.now (clock 3),
         Speed.Event.println "A: passing the ptr:" (Speed.timeSub (clock 3) (clock 2)),
         Speed.Event.now (clock 4)] ++
        List.replicate 1000000 (Speed.Event.call Speed.Fn.valFuncSmol 1) ++
        [Speed.Event.now (clock 5),
         Speed.Event.println "B: passing the val:" (Speed.timeSub (clock 5) (clock 4)),
         Speed.Event.now (clock 6)] ++
        List.replicate 1000000 (Speed.Event.call Speed.Fn.ptrFuncSmol 1) ++
        [Speed.Event.now (clock 7),
         Speed.Event.println "B: passing the ptr:" (Speed.timeSub (clock 7) (clock 6))] := by
  refine ⟨⟨8, Speed.mainTrace clock⟩, Speed.main_eq clock, ?_, ?_, rfl⟩
  · exact Speed.stdout_mainTrace fmtDuration clock
  · unfold Speed.stdout
    rw [Speed.stdout_mainTrace fmtDuration clock]
    rfl

/-- C5: each of the four batches of `main` makes exactly 1,000,000 calls of its
function, `valFunc` first, then `ptrFunc`, then `valFuncSmol`, then
`ptrFuncSmol`, 4,000,000 calls in all, and each of the four loops terminates. -/
theorem one_million_calls_per_batch (clock : Nat → Int) (a : Speed.A) (b : Speed.B) :
    (∃ st, Speed.main clock = some st ∧
      (Speed.callsOf st.trace).map Prod.fst =
        List.replicate 1000000 Speed.Fn.valFunc ++ (List.replicate 1000000 Speed.Fn.ptrFunc ++
        (List.replicate 1000000 Speed.Fn.valFuncSmol ++
          List.replicate 1000000 Speed.Fn.ptrFuncSmol)) ∧
      ((Speed.callsOf st.trace).map Prod.fst).count Speed.Fn.valFunc = 1000000 ∧
      ((Speed.callsOf st.trace).map Prod.fst).count Speed.Fn.ptrFunc = 1000000 ∧
      ((Speed.callsOf st.trace).map Prod.fst).count Speed.Fn.valFuncSmol = 1000000 ∧
      ((Speed.callsOf st.trace).map Prod.fst).count Speed.Fn.ptrFuncSmol = 1000000 ∧
      (Speed.callsOf st.trace).length = 4000000) ∧
    (∀ s : Speed.St, ∃ s1, forLoop 1000000
        (fun s => Speed.callStmt Speed.Fn.valFunc (some (Speed.valFunc a)) s) 0 s = some s1 ∧
        s1.trace.length = s.trace.length + 1000000) ∧
    (∀ s : Speed.St, ∃ s1, forLoop 1000000
        (fun s => Speed.callStmt Speed.Fn.ptrFunc (Speed.ptrFunc (Speed.Ref.addrOf a)) s) 0 s
          = some s1 ∧
        s1.trace.length = s.trace.length + 1000000) ∧
    (∀ s : Speed.St, ∃ s1, forLoop 1000000
        (fun s => Speed.callStmt Speed.Fn.valFuncSmol (some (Speed.valFuncSmol b)) s) 0 s
          = some s1 ∧
        s1.trace.length = s.trace.length + 1000000) ∧
    (∀ s : Speed.St, ∃ s1, forLoop 1000000
        (fun s => Speed.callStmt Speed.Fn.ptrFuncSmol (Speed.ptrFuncSmol (Speed.Ref.addrOf b)) s)
          0 s = some s1 ∧
        s1.trace.length = s.trace.length + 1000000) := by
  have hlen : ∀ (s : Speed.St) (e : Speed.Event),
      (s.trace ++ List.replicate 1000000 e).length = s.trace.length + 1000000 := fun s e => by
    rw [List.length_append, List.length_replicate]
  refine ⟨⟨⟨8, Speed.mainTrace clock⟩, Speed.main_eq clock, ?_⟩,
    fun s => ⟨_, Speed.batch_loop _ _ s, hlen s _⟩, fun s => ⟨_, Speed.batch_loop _ _ s, hlen s _⟩,
    fun s => ⟨_, Speed.batch_loop _ _ s, hlen s _⟩, fun s => ⟨_, Speed.batch_loop _ _ s, hlen s _⟩⟩
  have hm : (Speed.callsOf (Speed.mainTrace clock)).map Prod.fst =
      List.replicate 1000000 Speed.Fn.valFunc ++ (List.replicate 1000000 Speed.Fn.ptrFunc ++
        (List.replicate 1000000 Speed.Fn.valFuncSmol ++
          List.replicate 1000000 Speed.Fn.ptrFuncSmol)) := by
    rw [Speed.callsOf_mainTrace]
    simp only [List.map_append, List.map_replicate]
  refine ⟨hm, ?_, ?_, ?_, ?_, ?_⟩
  · simp only [hm, List.count_append, List.count_replicate]; decide
  · simp only [hm, List.count_append, List.count_replicate]; decide
  · simp only [hm, List.count_append, List.count_replicate]; decide
  · simp only [hm, List.count_append, List.count_replicate]; decide
  · show (Speed.callsOf (Speed.mainTrace clock)).length = 4000000
    rw [Speed.callsOf_mainTrace]
    simp only [List.length_append, List.length_replicate]

/-- C8: given a clock whose successive readings never decrease, each of the four
durations printed by the timer, `time.Now().Sub(t)` with `t` the reading taken
right before the batch, is at least 0. -/
theorem durations_are_nonnegative (clock : Nat → Int) (hmono : Monotone clock) :
    ∃ st, Speed.main clock = some st ∧
      Speed.durationsOf st.trace =
        [Speed.timeSub (clock 1) (clock 0), Speed.timeSub (clock 3) (clock 2),
         Speed.timeSub (clock 5) (clock 4), Speed.timeSub (clock 7) (clock 6)] ∧
      ∀ d ∈ Speed.durationsOf st.trace, 0 ≤ d := by
  refine ⟨⟨8, Speed.mainTrace clock⟩, Speed.main_eq clock,
    Speed.durationsOf_mainTrace clock, ?_⟩
  intro d hd
  rw [Speed.durationsOf_mainTrace] at hd
  simp only [List.mem_cons, List.mem_singleton, List.not_mem_nil, or_false] at hd
  rcases hd with rfl | rfl | rfl | rfl
  · exact Speed.timeSub_nonneg _ _ (hmono (by decide))
  · exact Speed.timeSub_nonneg _ _ (hmono (by decide))
  · exact Speed.timeSub_nonneg _ _ (hmono (by decide))
  · exact Speed.timeSub_nonneg _ _ (hmono (by decide))

/-- Witness of C8 at the clock whose `n`-th reading is `n` nanoseconds. -/
theorem durations_are_nonnegative_witness :
    Monotone (fun n : Nat => (n : Int)) ∧
    ∃ st, Speed.main (fun n : Nat => (n : Int)) = some st ∧
      Speed.durationsOf st.trace =
        [Speed.timeSub ((fun n : Nat => (n : Int)) 1) ((fun n : Nat => (n : Int)) 0),
         Speed.timeSub ((fun n : Nat => (n : Int)) 3) ((fun n : Nat => (n : Int)) 2),
         Speed.timeSub ((fun n : Nat => (n : Int)) 5) ((fun n : Nat => (n : Int)) 4),
         Speed.timeSub ((fun n : Nat => (n : Int)) 7) ((fun n : Nat => (n : Int)) 6)] ∧
      ∀ d ∈ Speed.durationsOf st.trace, 0 ≤ d :=
  ⟨fun _ _ h => Int.ofNat_le.mpr h,
   durations_are_nonnegative (fun n : Nat => (n : Int)) (fun _ _ h => Int.ofNat_le.mpr h)⟩

/-- C10: `ptrFunc` and `ptrFuncSmol` return on every pointer argument, the nil
pointer included: the length of the array field is a constant of its type and
the pointer is not dereferenced, so `ptrFunc(nil)` is 65536 and
`ptrFuncSmol(nil)` is 1 although dereferencing nil would panic. -/
theorem ptr_variants_total_on_nil :
    Speed.ptrFunc Speed.Ref.nil = some 65536 ∧ Speed.ptrFuncSmol Speed.Ref.nil = some 1 ∧
    (Speed.Ref.nil : Speed.Ref Speed.A).load = none ∧
    (Speed.Ref.nil : Speed.Ref Speed.B).load = none ∧
    (∀ a : Speed.Ref Speed.A, Speed.ptrFunc a = some 65536) ∧
    (∀ b : Speed.Ref Speed.B, Speed.ptrFuncSmol b = some 1) :=
  ⟨rfl, rfl, rfl, rfl, fun _ => rfl, fun _ => rfl⟩
